import Mathlib

/-!
Verification development for the `test-exec` crate: a shallow embedding of
the `exec!` macro expansion and its helper functions (`alter_path`, `wait`,
`get_code`, `assert`) from `src/lib.rs`, together with theorems settling the
specified properties. We model the Unix configuration (the crate is
cfg-gated on unix for signals; the path separator is a colon and the
directory separator a slash).
-/

namespace TestExec

/-! ### List-level string utilities

`split_paths` in Rust (std, Unix) splits the byte string on the colon
separator; splitting the empty string yields one empty entry, exactly like
`slice::split`. We model strings through their character lists to keep every
definition kernel-reducible.
-/

/-- Split a character list at every occurrence of `c`. The empty list
yields `[[]]`, matching Rust `slice::split` / `str::split`. -/
def splitOnChar (c : Char) : List Char → List (List Char)
  | [] => [[]]
  | x :: xs =>
    if x = c then [] :: splitOnChar c xs
    else
      match splitOnChar c xs with
      | [] => [[x]]
      | y :: ys => (x :: y) :: ys

/-- Join character lists with the single separator `c` between entries,
the inverse of `splitOnChar` for separator-free entries. -/
def joinWithChar (c : Char) : List (List Char) → List Char
  | [] => []
  | [x] => x
  | x :: xs => x ++ c :: joinWithChar c xs

/-- `std::env::split_paths` on Unix: split the value on the colon. -/
def split_paths (s : String) : List String :=
  (splitOnChar ':' s.data).map (fun l => String.mk l)

/-- `std::env::join_paths` on Unix: fails when an entry contains the
separator, otherwise intercalates entries with a colon. -/
def join_paths (l : List String) : Option String :=
  if l.any (fun p => p.data.contains ':') then none
  else some (String.mk (joinWithChar ':' (l.map String.data)))

/-! ### A minimal `PathBuf` model

Only the operations `alter_path` exercises are modelled: construction from
the (opaque, absolute) manifest directory, `push` of a relative path, which
appends its slash-separated components, `pop`, which drops the last
component, and rendering with slashes. -/

structure PathBuf where
  comps : List String
  deriving DecidableEq

def PathBuf.fromStr (s : String) : PathBuf := ⟨[s]⟩

/-- `PathBuf::push` for a relative argument: append its components. -/
def PathBuf.push (p : PathBuf) (s : String) : PathBuf :=
  ⟨p.comps ++ (splitOnChar '/' s.data).map (fun l => String.mk l)⟩

/-- `PathBuf::pop`: drop the last component. -/
def PathBuf.pop (p : PathBuf) : PathBuf :=
  ⟨p.comps.dropLast⟩

/-- Render a `PathBuf` with slash separators. -/
def PathBuf.render (p : PathBuf) : String :=
  String.mk (joinWithChar '/' (p.comps.map String.data))

/-! ### `alter_path` (src/lib.rs lines 427-436)

```rust
pub fn alter_path<T>(path: &T, current_path: &str) -> OsString {
    let mut paths: VecDeque<_> = split_paths(path).collect();
    let mut bins = PathBuf::from(current_path);
    bins.push("target/debug");
    paths.push_front(bins.clone());
    bins.pop();
    bins.push("release");
    paths.push_front(bins);
    join_paths(paths).expect("Invalid characters in path")
}
```
The `expect` panic is modelled by `Option`: `none` is the panic
"Invalid characters in path". -/

def alter_path (path : String) (current_path : String) : Option String :=
  let paths : List String := split_paths path
  let bins1 : PathBuf := (PathBuf.fromStr current_path).push "target/debug"
  let paths1 : List String := bins1.render :: paths
  let bins2 : PathBuf := (bins1.pop).push "release"
  let paths2 : List String := bins2.render :: paths1
  join_paths paths2

/-! ### Exit statuses and `get_code` (src/lib.rs lines 452-459)

On Unix a reaped terminal status either carries an exit code (normal exit)
or the number of the terminating signal, never both and never neither.
`ExitStatus::code` returns `none` on signal termination and
`ExitStatusExt::signal` returns `none` on normal exit. -/

inductive ExitStatus where
  | exited (c : Int)
  | signaled (s : Int)
  deriving DecidableEq

/-- `ExitStatus::code()`. -/
def ExitStatus.code : ExitStatus → Option Int
  | .exited c => some c
  | .signaled _ => none

/-- `ExitStatusExt::signal()` (Unix). -/
def ExitStatus.signal : ExitStatus → Option Int
  | .exited _ => none
  | .signaled s => some s

/-- `get_code` (Unix variant): `status.code().or_else(|| status.signal()).unwrap()`.
The `unwrap` can never panic on a reaped Unix status; the `getD 0` default
is dead code (see `get_code_never_panics`). -/
def get_code (status : ExitStatus) : Int :=
  ((status.code).orElse (fun _ => status.signal)).getD 0

/-! ### The child-process model

The child under test is an opaque collaborator: it is described by whether
spawning it succeeds, how long it runs before exiting naturally (`none`
means it never exits on its own), its natural terminal status, and the
bytes it emits on each stream. `killed` records delivery of SIGKILL by
`Child::kill`; a killed child is reaped with status `signaled SIGKILL`. -/

def SIGKILL : Int := 9

structure Child where
  spawnable : Bool
  runtime : Option Nat
  naturalStatus : ExitStatus
  outBytes : List Nat
  errBytes : List Nat
  killed : Bool := false
  deriving DecidableEq

/-- `Child::kill` (Unix): deliver SIGKILL. -/
def Child.kill (c : Child) : Child := { c with killed := true }

/-- `Child::wait`: `none` models blocking forever (the child never exits
and was not killed). A killed child is reaped as `signaled SIGKILL`. -/
def Child.waitNat (c : Child) : Option ExitStatus :=
  if c.killed then some (ExitStatus.signaled SIGKILL)
  else c.runtime.map (fun _ => c.naturalStatus)

/-- `ChildExt::wait_timeout` from the wait-timeout crate: `some` with the
natural status when the child exits within the window, `none` when the
window elapses first. -/
def Child.wait_timeout (c : Child) (d : Nat) : Option ExitStatus :=
  match c.runtime with
  | some t => if t ≤ d then some c.naturalStatus else none
  | none => none

/-! ### `wait` (src/lib.rs lines 439-450)

```rust
pub fn wait(child: &mut Child, duration: Option<Duration>) -> ExitStatus {
    if let Some(duration) = duration {
        child.wait_timeout(duration).expect("...")
            .unwrap_or_else(|| {
                child.kill().expect("...");
                println!("Killed child process");
                child.wait().unwrap()
            })
    } else {
        child.wait().expect("...")
    }
}
```
Both callees close the stdin handle before blocking: `Child::wait` in std
documents "the stdin handle to the child process, if any, will be closed
before waiting", and the wait-timeout crate performs the same
`drop(self.stdin.take())`; that side effect is surfaced as a trace event by
the `exec` model below. The overall `none` result models blocking forever. -/

def wait (c : Child) (duration : Option Nat) : Option ExitStatus :=
  match duration with
  | some d =>
    match c.wait_timeout d with
    | some status => some status
    | none => (c.kill).waitNat
  | none => c.waitNat

/-! ### The `exec!` macro configuration

One optional field per optional macro key; `none` means the key is absent
from the invocation. `env` is the ordered list of pairs of the `env`
pseudo-object, stream payloads and expectations are byte lists, `timeout`
is in milliseconds, `code` and `signal` carry `i32` values as `Int`. -/

structure Config where
  program : String
  args : List String := []
  cwd : Option String := none
  clear_env : Option Bool := none
  env : Option (List (String × String)) := none
  modify_path : Option Bool := none
  stdin : Option (List Nat) := none
  timeout : Option Nat := none
  log : Option Bool := none
  code : Option Int := none
  stdout : Option (List Nat) := none
  stderr : Option (List Nat) := none
  signal : Option Int := none
  deriving DecidableEq

/-- Ambient facts of the invoking process: `var_os("PATH")` of the caller,
`env!("CARGO_MANIFEST_DIR")`, and the Debug rendering of the OS error that
`Command::spawn` would report on failure. -/
structure World where
  pathVar : Option String
  manifestDir : String
  spawnErrorRepr : String
  deriving DecidableEq

inductive Stdio where
  | null
  | piped
  deriving DecidableEq

/-- The state of the `std::process::Command` builder right before `spawn`:
whether `env_clear` ran, the ordered `env` calls issued, and the stdin
configuration. `stdout` and `stderr` are always piped (lines 304-305). -/
structure Command where
  program : String
  args : List String
  cwd : Option String
  envCleared : Bool
  envSets : List (String × String)
  stdinCfg : Stdio
  deriving DecidableEq

/-- The `env` pseudo-object loop of the macro (lines 328-338): each pair is
installed verbatim, except that a `PATH` key with `modify_path` enabled is
routed through `alter_path` (and sets `custom_path`). An `alter_path`
failure is the panic "Invalid characters in path". Returns the `env` calls
in order together with the final `custom_path` flag. -/
def processEnvPairs (modifyPath : Bool) (manifestDir : String) :
    List (String × String) → Except String (List (String × String) × Bool)
  | [] => Except.ok ([], false)
  | (k, v) :: rest =>
    if k = "PATH" ∧ modifyPath then
      match alter_path v manifestDir with
      | none => Except.error "Invalid characters in path"
      | some p =>
        match processEnvPairs modifyPath manifestDir rest with
        | Except.error e => Except.error e
        | Except.ok (sets, _) => Except.ok (("PATH", p) :: sets, true)
    else
      match processEnvPairs modifyPath manifestDir rest with
      | Except.error e => Except.error e
      | Except.ok (sets, cp) => Except.ok ((k, v) :: sets, cp)

/-- Lines 301-348 of the macro: build the `Command` before `spawn`.
After the `env` loop, if no `PATH` override was composed and `modify_path`
is enabled, the inherited `PATH` (empty when absent) is composed and
installed (lines 340-343). A `stdin` key switches stdin from null to a
pipe (lines 345-348). Errors are pre-spawn panics. -/
def buildCommand (cfg : Config) (w : World) : Except String Command :=
  let modifyPath : Bool := cfg.modify_path.getD true
  match processEnvPairs modifyPath w.manifestDir (cfg.env.getD []) with
  | Except.error e => Except.error e
  | Except.ok (sets, customPath) =>
    let finish : List (String × String) → Except String Command := fun finalSets =>
      Except.ok
        { program := cfg.program
          args := cfg.args
          cwd := cfg.cwd
          envCleared := cfg.clear_env.getD false
          envSets := finalSets
          stdinCfg := if cfg.stdin.isSome then Stdio.piped else Stdio.null }
    if ¬ customPath ∧ modifyPath then
      match alter_path (w.pathVar.getD "") w.manifestDir with
      | none => Except.error "Invalid characters in path"
      | some p => finish (sets ++ [("PATH", p)])
    else
      finish sets

/-- The value a key holds in the effective environment after the recorded
`Command::env` calls: the last call for that key wins. -/
def lookupLast (sets : List (String × String)) (k : String) : Option String :=
  ((sets.filter (fun pr => pr.1 = k)).getLast?).map Prod.snd

/-! ### Observable events of one invocation

The stages of the expanded macro in execution order, with the data each one
handles. Comparisons record the expected and the actual value. -/

inductive Ev where
  | spawned
  | wroteStdin (payload : List Nat)
  | closedStdin
  | waited
  | checkedCode (expected actual : Int)
  | checkedSignal (expected : Int) (actual : Option Int)
  | drainedOut (bytes : List Nat)
  | drainedErr (bytes : List Nat)
  | checkedOut (expected actual : List Nat)
  | checkedErr (expected actual : List Nat)
  | builtOutput
  deriving DecidableEq

/-- The `process::Output` value the macro returns (line 411-415). -/
structure Output where
  status : ExitStatus
  stdout : List Nat
  stderr : List Nat
  deriving DecidableEq

/-- Either a panic (an `assert`/`expect` failure) with its base message, or
the returned `Output`. -/
inductive ExecResult where
  | panicked (msg : String)
  | ok (out : Output)
  deriving DecidableEq

/-- One optional stream assertion (lines 400-409): `none` when the
expectation is absent or matched, otherwise the panic message. -/
def checkStream (expected : Option (List Nat)) (actual : List Nat)
    (panicMsg : String) : Option String :=
  match expected with
  | none => none
  | some v => if v = actual then none else some panicMsg

/-- The comparison event an optional stream assertion records: one event
when the expectation is present, none otherwise. -/
def streamCheckEvs (expected : Option (List Nat)) (actual : List Nat)
    (mkEv : List Nat → List Nat → Ev) : List Ev :=
  match expected with
  | none => []
  | some v => [mkEv v actual]

/-- The comparison event of the optional Unix signal assertion. -/
def signalCheckEvs (expected : Option Int) (actual : Option Int) : List Ev :=
  match expected with
  | some sg => [Ev.checkedSignal sg actual]
  | none => []

/-- Lines 375-415: drain both streams fully into fresh buffers (the two
`io::copy` calls read to end of stream), then run the optional stdout and
stderr assertions, then build the single `Output`. -/
def drainAndVerify (cfg : Config) (c : Child) (status : ExitStatus)
    (tr : List Ev) : List Ev × ExecResult :=
  let outB := c.outBytes
  let errB := c.errBytes
  let tr1 := tr ++ [Ev.drainedOut outB, Ev.drainedErr errB]
  let tr2 := tr1 ++ streamCheckEvs cfg.stdout outB Ev.checkedOut
  match checkStream cfg.stdout outB "Unexpected value of stdout" with
  | some m => (tr2, ExecResult.panicked m)
  | none =>
    let tr3 := tr2 ++ streamCheckEvs cfg.stderr errB Ev.checkedErr
    match checkStream cfg.stderr errB "Unexpected value of stderr" with
    | some m => (tr3, ExecResult.panicked m)
    | none => (tr3 ++ [Ev.builtOutput], ExecResult.ok ⟨status, outB, errB⟩)

/-- Lines 363-373: the always-run exit-code assertion against the default
of `0` or the `code` key, then the optional Unix signal assertion
(`assert_eq!(Some($signal), status.signal())`), then the drain/verify
stage. -/
def afterWait (cfg : Config) (c : Child) (status : ExitStatus)
    (tr : List Ev) : List Ev × ExecResult :=
  let expCode := cfg.code.getD 0
  let act := get_code status
  let tr1 := tr ++ [Ev.checkedCode expCode act]
  if expCode = act then
    let tr2 := tr1 ++ signalCheckEvs cfg.signal status.signal
    match cfg.signal with
    | some sg =>
      if some sg = status.signal then drainAndVerify cfg c status tr2
      else (tr2, ExecResult.panicked "Unexpected signal")
    | none => drainAndVerify cfg c status tr2
  else (tr1, ExecResult.panicked "Unexpected exit code")

/-- The whole expanded `exec!` invocation. `none` models an invocation that
never returns (the wait blocks forever). Pre-spawn panics carry no events;
`spawn` failure panics with the `expect` message and the Debug rendering of
the OS error. Writing the stdin payload (lines 351-356) happens after a
successful spawn; the stdin pipe is closed by the callee at the start of
`wait` (see `wait` above), before any blocking. -/
def exec (cfg : Config) (w : World) (c : Child) :
    Option (List Ev × ExecResult) :=
  match buildCommand cfg w with
  | Except.error m => some ([], ExecResult.panicked m)
  | Except.ok cmd =>
    if c.spawnable then
      let tr0 : List Ev := [Ev.spawned] ++
        (match cfg.stdin with
         | some p => [Ev.wroteStdin p]
         | none => [])
      let closeEvs : List Ev :=
        if cmd.stdinCfg = Stdio.piped then [Ev.closedStdin] else []
      match wait c cfg.timeout with
      | some status => some (afterWait cfg c status (tr0 ++ closeEvs ++ [Ev.waited]))
      | none => none
    else
      some ([], ExecResult.panicked ("Failed to spawn child process: " ++ w.spawnErrorRepr))

/-- The events of a spawned invocation up to and including the return of
`wait`: spawn, the optional full stdin write, the stdin-pipe close that the
wait performs when stdin was piped, then the wait itself. -/
def spawnWaitEvs (cfg : Config) : List Ev :=
  [Ev.spawned] ++
    (match cfg.stdin with
     | some p => [Ev.wroteStdin p]
     | none => []) ++
    (if cfg.stdin.isSome then [Ev.closedStdin] else []) ++ [Ev.waited]

/-- Is `needle` a leading segment of `hay`? -/
def leadsList (needle hay : List Char) : Bool :=
  match needle, hay with
  | [], _ => true
  | _ :: _, [] => false
  | a :: as, b :: bs => a == b && leadsList as bs

/-- Does `needle` occur contiguously anywhere inside `hay`? -/
def occursList (needle : List Char) : List Char → Bool
  | [] => leadsList needle []
  | b :: bs => leadsList needle (b :: bs) || occursList needle bs

/-- Does the string `needle` occur as a substring of `hay`? -/
def strHas (hay needle : String) : Bool :=
  occursList needle.data hay.data

/-! ### Helper lemmas: split/join roundtrip and the two trusted entries -/

theorem get_code_never_panics (status : ExitStatus) :
    ((status.code).orElse (fun _ => status.signal)).isSome := by
  cases status <;> rfl

theorem splitOnChar_of_not_mem (c : Char) (x : List Char) (h : c ∉ x) :
    splitOnChar c x = [x] := by
  induction x with
  | nil => rfl
  | cons a as ih =>
    have ha : ¬ a = c := by
      intro hac
      exact h (by simp [hac])
    have has : c ∉ as := fun hm => h (List.mem_cons_of_mem a hm)
    simp [splitOnChar, ha, ih has]

theorem splitOnChar_cons (c a : Char) (l : List Char) :
    splitOnChar c (a :: l) =
      if a = c then [] :: splitOnChar c l
      else
        match splitOnChar c l with
        | [] => [[a]]
        | y :: ys => (a :: y) :: ys := rfl

theorem splitOnChar_append_cons (c : Char) (x rest : List Char) (h : c ∉ x) :
    splitOnChar c (x ++ c :: rest) = x :: splitOnChar c rest := by
  induction x with
  | nil => simp [splitOnChar]
  | cons a as ih =>
    have ha : ¬ a = c := by
      intro hac
      exact h (by simp [hac])
    have has : c ∉ as := fun hm => h (List.mem_cons_of_mem a hm)
    rw [List.cons_append, splitOnChar_cons, if_neg ha, ih has]

theorem splitOnChar_joinWithChar (c : Char) (l : List (List Char))
    (hne : l ≠ []) (h : ∀ x ∈ l, c ∉ x) :
    splitOnChar c (joinWithChar c l) = l := by
  induction l with
  | nil => exact absurd rfl hne
  | cons x xs ih =>
    cases xs with
    | nil =>
      simp only [joinWithChar]
      exact splitOnChar_of_not_mem c x (h x (by simp))
    | cons y ys =>
      have hx : c ∉ x := h x (by simp)
      have hrest : ∀ z ∈ y :: ys, c ∉ z := fun z hz => h z (List.mem_cons_of_mem x hz)
      have : joinWithChar c (x :: y :: ys) = x ++ c :: joinWithChar c (y :: ys) := rfl
      rw [this, splitOnChar_append_cons c x _ hx, ih (by simp) hrest]

theorem split_paths_join_paths (l : List String) (out : String)
    (hne : l ≠ []) (h : join_paths l = some out) :
    split_paths out = l := by
  unfold join_paths at h
  by_cases hc : (l.any fun p => p.data.contains ':') = true
  · rw [if_pos hc] at h
    exact absurd h (by simp)
  · rw [if_neg hc] at h
    have hout : String.mk (joinWithChar ':' (l.map String.data)) = out := Option.some.inj h
    have hfree : ∀ x ∈ l.map String.data, ':' ∉ x := by
      intro x hx hmem
      rcases List.mem_map.mp hx with ⟨p, hp, hpx⟩
      apply hc
      refine List.any_eq_true.mpr ⟨p, hp, ?_⟩
      subst hpx
      simpa using hmem
    have hmapne : l.map String.data ≠ [] := by
      simpa using hne
    unfold split_paths
    rw [← hout]
    show (splitOnChar ':' (joinWithChar ':' (l.map String.data))).map
        (fun d => String.mk d) = l
    rw [splitOnChar_joinWithChar ':' (l.map String.data) hmapne hfree, List.map_map]
    have hid : ((fun d => String.mk d) ∘ String.data) = id := funext (fun s => rfl)
    rw [hid, List.map_id]

/-- The first trusted entry `alter_path` builds (pushed to the front last):
`<manifest>/target/release`. -/
theorem render_release_entry (m : String) :
    ((((PathBuf.fromStr m).push "target/debug").pop).push "release").render =
      m ++ "/target/release" := by
  apply String.ext
  show joinWithChar '/' [m.data, "target".data, "release".data] = (m ++ "/target/release").data
  simp [joinWithChar, String.data_append]

/-- The second trusted entry `alter_path` builds (pushed to the front
first): `<manifest>/target/debug`. -/
theorem render_debug_entry (m : String) :
    ((PathBuf.fromStr m).push "target/debug").render = m ++ "/target/debug" := by
  apply String.ext
  show joinWithChar '/' [m.data, "target".data, "debug".data] = (m ++ "/target/debug").data
  simp [joinWithChar, String.data_append]

theorem alter_path_entries (path m : String) :
    alter_path path m =
      join_paths ((m ++ "/target/release") :: (m ++ "/target/debug") :: split_paths path) := by
  simp only [alter_path]
  rw [render_release_entry, render_debug_entry]

/-! ### Environment-construction lemmas -/

theorem lookupLast_cons_ne (k key v : String) (sets : List (String × String))
    (h : ¬ k = key) :
    lookupLast ((k, v) :: sets) key = lookupLast sets key := by
  simp [lookupLast, h]

theorem lookupLast_no_key (sets : List (String × String)) (key : String)
    (h : ∀ pr ∈ sets, pr.1 ≠ key) :
    lookupLast sets key = none := by
  have : sets.filter (fun pr => pr.1 = key) = [] :=
    List.filter_eq_nil_iff.mpr (fun pr hpr => by simp [h pr hpr])
  simp [lookupLast, this]

theorem lookupLast_cons_self (key val : String) (sets : List (String × String))
    (h : ∀ pr ∈ sets, pr.1 ≠ key) :
    lookupLast ((key, val) :: sets) key = some val := by
  have : sets.filter (fun pr => pr.1 = key) = [] :=
    List.filter_eq_nil_iff.mpr (fun pr hpr => by simp [h pr hpr])
  simp [lookupLast, this]

theorem lookupLast_append_single (sets : List (String × String)) (key val : String)
    (h : ∀ pr ∈ sets, pr.1 ≠ key) :
    lookupLast (sets ++ [(key, val)]) key = some val := by
  have : sets.filter (fun pr => pr.1 = key) = [] :=
    List.filter_eq_nil_iff.mpr (fun pr hpr => by simp [h pr hpr])
  simp [lookupLast, List.filter_append, this]

/-- With `modify_path` disabled the `env` loop installs every pair
verbatim and never sets `custom_path`. -/
theorem processEnvPairs_disabled (m : String) (pairs : List (String × String)) :
    processEnvPairs false m pairs = Except.ok (pairs, false) := by
  induction pairs with
  | nil => rfl
  | cons pr rest ih =>
    obtain ⟨k, v⟩ := pr
    simp [processEnvPairs, ih]

/-- Without a `PATH` key the `env` loop installs every pair verbatim and
never sets `custom_path`, whatever `modify_path` is. -/
theorem processEnvPairs_no_path (mp : Bool) (m : String)
    (pairs : List (String × String)) (h : ∀ pr ∈ pairs, pr.1 ≠ "PATH") :
    processEnvPairs mp m pairs = Except.ok (pairs, false) := by
  induction pairs with
  | nil => rfl
  | cons pr rest ih =>
    obtain ⟨k, v⟩ := pr
    have hk : k ≠ "PATH" := h (k, v) (by simp)
    have hrest : ∀ pr ∈ rest, pr.1 ≠ "PATH" := fun pr hpr => h pr (List.mem_cons_of_mem _ hpr)
    simp [processEnvPairs, hk, ih hrest]

theorem processEnvPairs_cons_of_ne (mp : Bool) (m k u : String)
    (rest : List (String × String)) (hk : ¬ k = "PATH") :
    processEnvPairs mp m ((k, u) :: rest) =
      match processEnvPairs mp m rest with
      | Except.error e => Except.error e
      | Except.ok (sets, cp) => Except.ok ((k, u) :: sets, cp) := by
  simp only [processEnvPairs]
  rw [if_neg (fun hc => hk hc.1)]

theorem processEnvPairs_cons_of_path (m u : String)
    (rest : List (String × String)) :
    processEnvPairs true m (("PATH", u) :: rest) =
      match alter_path u m with
      | none => Except.error "Invalid characters in path"
      | some p =>
        match processEnvPairs true m rest with
        | Except.error e => Except.error e
        | Except.ok (sets, _) => Except.ok (("PATH", p) :: sets, true) := by
  simp [processEnvPairs]

/-- With `modify_path` enabled and a unique `PATH` override among the
pairs, a successful `env` loop sets `custom_path` and the last `PATH`
value it installs is the composed override. -/
theorem processEnvPairs_path (m v : String) (pairs : List (String × String))
    (hnd : (pairs.map Prod.fst).Nodup) (hmem : ("PATH", v) ∈ pairs) :
    ∀ sets cp, processEnvPairs true m pairs = Except.ok (sets, cp) →
      cp = true ∧ ∃ p, alter_path v m = some p ∧ lookupLast sets "PATH" = some p := by
  induction pairs with
  | nil => simp at hmem
  | cons pr rest ih =>
    obtain ⟨k, u⟩ := pr
    intro sets cp hrun
    by_cases hk : k = "PATH"
    · subst hk
      have hnotin : ∀ pr ∈ rest, pr.1 ≠ "PATH" := by
        intro pr hpr habs
        have : "PATH" ∈ rest.map Prod.fst := List.mem_map.mpr ⟨pr, hpr, habs⟩
        exact (List.nodup_cons.mp (by simpa using hnd)).1 this
      have hv : v = u := by
        rcases List.mem_cons.mp hmem with heq | hin
        · exact (Prod.mk.injEq _ _ _ _ ▸ heq).2
        · exact absurd rfl (hnotin ("PATH", v) hin)
      subst hv
      rw [processEnvPairs_cons_of_path] at hrun
      cases hap : alter_path v m with
      | none => simp [hap] at hrun
      | some p =>
        simp only [hap, processEnvPairs_no_path true m rest hnotin] at hrun
        have hsets := (Except.ok.inj hrun)
        injection hsets with h1 h2
        subst h1
        subst h2
        exact ⟨rfl, p, rfl, lookupLast_cons_self "PATH" p rest hnotin⟩
    · have hin : ("PATH", v) ∈ rest := by
        rcases List.mem_cons.mp hmem with heq | hin
        · exact absurd (congrArg Prod.fst heq).symm hk
        · exact hin
      have hndrest : (rest.map Prod.fst).Nodup := (List.nodup_cons.mp (by simpa using hnd)).2
      rw [processEnvPairs_cons_of_ne true m k u rest hk] at hrun
      cases hr : processEnvPairs true m rest with
      | error e => simp [hr] at hrun
      | ok pr2 =>
        obtain ⟨sets2, cp2⟩ := pr2
        simp only [hr] at hrun
        have hsets := (Except.ok.inj hrun)
        injection hsets with h1 h2
        subst h1
        subst h2
        obtain ⟨hcp2, p, hap, hlook⟩ := ih hndrest hin sets2 cp2 hr
        refine ⟨hcp2, p, hap, ?_⟩
        rw [lookupLast_cons_ne k "PATH" u sets2 hk]
        exact hlook

/-! ### Claim theorems -/

/-- C3: `get_code` returns the natural exit code when the status carries
one, and on signal termination (no exit code) it returns the terminating
signal number as surrogate code. -/
theorem C3_get_code_effective (status : ExitStatus) :
    (∀ c, status.code = some c → get_code status = c)
    ∧ (status.code = none → ∀ g, status.signal = some g → get_code status = g) := by
  cases status <;>
    simp [get_code, ExitStatus.code, ExitStatus.signal, Option.orElse, Option.getD]

theorem C3_get_code_effective_witness :
    get_code (ExitStatus.exited 3) = 3 ∧ get_code (ExitStatus.signaled 9) = 9 :=
  ⟨(C3_get_code_effective (ExitStatus.exited 3)).1 3 rfl,
   (C3_get_code_effective (ExitStatus.signaled 9)).2 rfl 9 rfl⟩

/-- C2: without a timeout, `wait` blocks until the natural exit and
returns that status unchanged; with a timeout it returns the natural
status when the child exits within the window, and when the window elapses
first it kills the child (SIGKILL), blocks until it is reaped, and returns
the resulting status. -/
theorem C2_wait_bounded (c : Child) (d t : Nat) :
    (c.killed = false → c.runtime = some t → wait c none = some c.naturalStatus)
    ∧ (c.runtime = some t → t ≤ d → wait c (some d) = some c.naturalStatus)
    ∧ ((∀ u, c.runtime = some u → d < u) →
        wait c (some d) = (c.kill).waitNat
        ∧ (c.kill).waitNat = some (ExitStatus.signaled SIGKILL)) := by
  refine ⟨fun hk hrt => ?_, fun hrt hle => ?_, fun helapse => ?_⟩
  · simp [wait, Child.waitNat, hk, hrt]
  · simp [wait, Child.wait_timeout, hrt, hle]
  · have hto : c.wait_timeout d = none := by
      unfold Child.wait_timeout
      cases hcrt : c.runtime with
      | none => rfl
      | some u =>
        have := helapse u hcrt
        simp [Nat.not_le_of_lt this]
    constructor
    · simp [wait, hto]
    · simp [Child.kill, Child.waitNat]

theorem C2_wait_bounded_witness :
    wait ⟨true, some 2, ExitStatus.exited 0, [], [], false⟩ none = some (ExitStatus.exited 0)
    ∧ wait ⟨true, some 2, ExitStatus.exited 0, [], [], false⟩ (some 5) = some (ExitStatus.exited 0)
    ∧ wait ⟨true, some 60000, ExitStatus.exited 0, [], [], false⟩ (some 3000) =
        some (ExitStatus.signaled 9) := by
  refine ⟨(C2_wait_bounded ⟨true, some 2, ExitStatus.exited 0, [], [], false⟩ 5 2).1 rfl rfl,
    (C2_wait_bounded ⟨true, some 2, ExitStatus.exited 0, [], [], false⟩ 5 2).2.1 rfl (by decide),
    ?_⟩
  have h := (C2_wait_bounded ⟨true, some 60000, ExitStatus.exited 0, [], [], false⟩ 3000 0).2.2
    (by intro u hu; cases hu; decide)
  rw [h.1, h.2]
  rfl

/-- C4 (counterexample): on the existing search path `/bin` with base
directory `/proj`, the composed value puts the release entry first, so the
highest-priority entry is the release entry, not the debug entry the claim
puts in front. -/
theorem C4_counterexample :
    alter_path "/bin" "/proj" = some "/proj/target/release:/proj/target/debug:/bin"
    ∧ split_paths "/proj/target/release:/proj/target/debug:/bin" =
        ["/proj/target/release", "/proj/target/debug", "/bin"]
    ∧ ("/proj/target/release" : String) ≠ "/proj/target/debug" := by
  refine ⟨by decide, by decide, by decide⟩

/-- C4 (amended): `alter_path` splits the current value into its ordered
entries, prepends the debug entry and then the release entry, so the
release entry has the highest priority, the debug entry comes second, and
the original entries follow in their original order. -/
theorem C4_alter_path_order (path m out : String)
    (h : alter_path path m = some out) :
    alter_path path m =
      join_paths ((m ++ "/target/release") :: (m ++ "/target/debug") :: split_paths path)
    ∧ split_paths out =
        (m ++ "/target/release") :: (m ++ "/target/debug") :: split_paths path := by
  refine ⟨alter_path_entries path m, ?_⟩
  apply split_paths_join_paths _ _ (by simp)
  rw [← alter_path_entries path m]
  exact h

/-- With augmentation enabled and no `PATH` override, `buildCommand`
composes the inherited `PATH` (empty default) and appends it as the final
`env` call. -/
theorem buildCommand_no_override (cfg : Config) (w : World)
    (hmp : cfg.modify_path.getD true = true)
    (hnp : ∀ pr ∈ cfg.env.getD [], pr.1 ≠ "PATH") :
    buildCommand cfg w =
      match alter_path (w.pathVar.getD "") w.manifestDir with
      | none => Except.error "Invalid characters in path"
      | some p =>
        Except.ok
          { program := cfg.program
            args := cfg.args
            cwd := cfg.cwd
            envCleared := cfg.clear_env.getD false
            envSets := cfg.env.getD [] ++ [("PATH", p)]
            stdinCfg := if cfg.stdin.isSome then Stdio.piped else Stdio.null } := by
  cases hap : alter_path (w.pathVar.getD "") w.manifestDir with
  | none =>
    simp [buildCommand, hmp,
      processEnvPairs_no_path true w.manifestDir (cfg.env.getD []) hnp, hap]
  | some p =>
    simp [buildCommand, hmp,
      processEnvPairs_no_path true w.manifestDir (cfg.env.getD []) hnp, hap]

/-- With augmentation enabled and a unique `PATH` override, a successful
`buildCommand` installs the composed override value as the effective
`PATH`. -/
theorem buildCommand_with_override (cfg : Config) (w : World)
    (hmp : cfg.modify_path.getD true = true)
    (hnd : ((cfg.env.getD []).map Prod.fst).Nodup)
    (v : String) (hv : ("PATH", v) ∈ cfg.env.getD [])
    (cmd : Command) (hok : buildCommand cfg w = Except.ok cmd) :
    ∃ p, alter_path v w.manifestDir = some p
      ∧ lookupLast cmd.envSets "PATH" = some p := by
  simp only [buildCommand, hmp] at hok
  cases hpe : processEnvPairs true w.manifestDir (cfg.env.getD []) with
  | error e => rw [hpe] at hok; exact absurd hok (by simp)
  | ok pr =>
    obtain ⟨sets, cp⟩ := pr
    obtain ⟨hcp, p, hap, hlook⟩ :=
      processEnvPairs_path w.manifestDir v (cfg.env.getD []) hnd hv sets cp hpe
    subst hcp
    simp only [hpe] at hok
    rw [if_neg (show ¬(¬True ∧ True) from by simp)] at hok
    have hcmd := Except.ok.inj hok
    subst hcmd
    exact ⟨p, hap, hlook⟩

/-- With augmentation enabled and a `PATH` override present, the inherited
search path of the calling process is never read: `buildCommand` gives the
same result in any two worlds agreeing on the manifest directory. -/
theorem buildCommand_ignores_inherited (cfg : Config) (w w2 : World)
    (hmp : cfg.modify_path.getD true = true)
    (hnd : ((cfg.env.getD []).map Prod.fst).Nodup)
    (v : String) (hv : ("PATH", v) ∈ cfg.env.getD [])
    (hm : w2.manifestDir = w.manifestDir) :
    buildCommand cfg w2 = buildCommand cfg w := by
  simp only [buildCommand, hmp, hm]
  cases hpe : processEnvPairs true w.manifestDir (cfg.env.getD []) with
  | error e => rfl
  | ok pr =>
    obtain ⟨sets, cp⟩ := pr
    obtain ⟨hcp, -, -, -⟩ :=
      processEnvPairs_path w.manifestDir v (cfg.env.getD []) hnd hv sets cp hpe
    subst hcp
    simp

theorem C4_alter_path_order_witness :
    alter_path "/bin:/usr/bin" "/proj" =
      join_paths ["/proj/target/release", "/proj/target/debug", "/bin", "/usr/bin"]
    ∧ split_paths "/proj/target/release:/proj/target/debug:/bin:/usr/bin" =
        ["/proj/target/release", "/proj/target/debug", "/bin", "/usr/bin"] := by
  have h := C4_alter_path_order "/bin:/usr/bin" "/proj"
    "/proj/target/release:/proj/target/debug:/bin:/usr/bin" (by decide)
  refine ⟨?_, ?_⟩
  · rw [h.1]
    decide
  · have := h.2
    rw [this]
    decide

/-- C5: search-path augmentation is applied exactly when `modify_path` is
enabled, and its default is enabled: (a) leaving the key unset behaves as
`modify_path: true`; (b) a `PATH` override among the env pairs is itself
the Composer input, installed composed under the name `PATH`, and the
inherited search path is never read; (c) without an override the inherited
`PATH` (empty when absent) is composed and appended as the final `env`
call; (d) with `modify_path` disabled the env pairs are installed verbatim
and no composed `PATH` is installed. -/
theorem C5_modify_path (cfg : Config) (w : World) :
    (cfg.modify_path = none →
      buildCommand cfg w = buildCommand { cfg with modify_path := some true } w)
    ∧ (cfg.modify_path.getD true = true →
        ((cfg.env.getD []).map Prod.fst).Nodup →
        ∀ v, ("PATH", v) ∈ cfg.env.getD [] →
          (∀ cmd, buildCommand cfg w = Except.ok cmd →
            ∃ p, alter_path v w.manifestDir = some p
              ∧ lookupLast cmd.envSets "PATH" = some p)
          ∧ (∀ w2 : World, w2.manifestDir = w.manifestDir →
              buildCommand cfg w2 = buildCommand cfg w))
    ∧ (cfg.modify_path.getD true = true →
        (∀ pr ∈ cfg.env.getD [], pr.1 ≠ "PATH") →
        ∀ cmd, buildCommand cfg w = Except.ok cmd →
          ∃ p, alter_path (w.pathVar.getD "") w.manifestDir = some p
            ∧ cmd.envSets = cfg.env.getD [] ++ [("PATH", p)]
            ∧ lookupLast cmd.envSets "PATH" = some p)
    ∧ (cfg.modify_path = some false →
        buildCommand cfg w = Except.ok
          { program := cfg.program
            args := cfg.args
            cwd := cfg.cwd
            envCleared := cfg.clear_env.getD false
            envSets := cfg.env.getD []
            stdinCfg := if cfg.stdin.isSome then Stdio.piped else Stdio.null }) := by
  refine ⟨fun h => ?_, fun hmp hnd v hv => ?_, fun hmp hnp cmd hok => ?_, fun h => ?_⟩
  · simp [buildCommand, h]
  · exact ⟨fun cmd hok => buildCommand_with_override cfg w hmp hnd v hv cmd hok,
      fun w2 h2 => buildCommand_ignores_inherited cfg w w2 hmp hnd v hv h2⟩
  · rw [buildCommand_no_override cfg w hmp hnp] at hok
    cases hap : alter_path (w.pathVar.getD "") w.manifestDir with
    | none => rw [hap] at hok; exact absurd hok (by simp)
    | some p =>
      rw [hap] at hok
      have hcmd := Except.ok.inj hok
      subst hcmd
      exact ⟨p, rfl, rfl, lookupLast_append_single (cfg.env.getD []) "PATH" p hnp⟩
  · simp [buildCommand, h, processEnvPairs_disabled]

theorem C5_modify_path_witness :
    lookupLast [("PATH", "/proj/target/release:/proj/target/debug:/bin")] "PATH" =
      some "/proj/target/release:/proj/target/debug:/bin" := by
  have h := ((C5_modify_path
      { program := "printenv", env := some [("PATH", "/bin")] }
      ⟨some "/usr", "/proj", ""⟩).2.1 rfl (by decide) "/bin" (by decide)).1
      { program := "printenv", args := [], cwd := none, envCleared := false,
        envSets := [("PATH", "/proj/target/release:/proj/target/debug:/bin")],
        stdinCfg := Stdio.null }
      (by rfl)
  obtain ⟨p, hp1, hp2⟩ := h
  have hpv : p = "/proj/target/release:/proj/target/debug:/bin" := by
    apply Option.some.inj
    rw [← hp1]
    decide
  rw [hpv] at hp2
  exact hp2

/-- C10 (counterexample): with the inherited `PATH` absent, the `PATH`
installed for the child is not composed from the two trusted directories
alone — splitting the empty default yields one empty entry, so the
composed value carries a trailing separator and a third, empty entry. -/
theorem C10_counterexample :
    ((buildCommand { program := "x", clear_env := some true }
        ⟨none, "/proj", ""⟩).toOption.map (fun cmd => lookupLast cmd.envSets "PATH")) =
      some (some "/proj/target/release:/proj/target/debug:")
    ∧ split_paths "/proj/target/release:/proj/target/debug:" ≠
        ["/proj/target/release", "/proj/target/debug"] :=
  ⟨rfl, by decide⟩

/-- C10 (amended): with `clear_env: true`, no `PATH` override and
`modify_path` left at its default, the child environment still receives a
`PATH` entry, composed from the inherited `PATH` of the calling process;
when that is absent the composed value is the two trusted directories
followed by one empty entry (the split of the empty default). -/
theorem C10_clear_env_keeps_path (cfg : Config) (w : World) (cmd : Command)
    (hclear : cfg.clear_env = some true)
    (hmp : cfg.modify_path = none)
    (hnp : ∀ pr ∈ cfg.env.getD [], pr.1 ≠ "PATH")
    (hok : buildCommand cfg w = Except.ok cmd) :
    cmd.envCleared = true
    ∧ (∃ p, alter_path (w.pathVar.getD "") w.manifestDir = some p
        ∧ lookupLast cmd.envSets "PATH" = some p)
    ∧ (w.pathVar = none →
        ∀ p, lookupLast cmd.envSets "PATH" = some p →
          split_paths p =
            [w.manifestDir ++ "/target/release", w.manifestDir ++ "/target/debug", ""]) := by
  have hmp2 : cfg.modify_path.getD true = true := by rw [hmp]; rfl
  rw [buildCommand_no_override cfg w hmp2 hnp] at hok
  cases hap : alter_path (w.pathVar.getD "") w.manifestDir with
  | none => rw [hap] at hok; exact absurd hok (by simp)
  | some p =>
    rw [hap] at hok
    have hcmd := Except.ok.inj hok
    subst hcmd
    have hlook : lookupLast (cfg.env.getD [] ++ [("PATH", p)]) "PATH" = some p :=
      lookupLast_append_single (cfg.env.getD []) "PATH" p hnp
    refine ⟨by simp [hclear], ⟨p, rfl, hlook⟩, fun hpv q hq => ?_⟩
    have hqp : q = p := by
      apply Option.some.inj
      rw [← hq, hlook]
    subst hqp
    rw [hpv] at hap
    have hap2 : join_paths ((w.manifestDir ++ "/target/release") ::
        (w.manifestDir ++ "/target/debug") :: split_paths "") = some q := by
      rw [← alter_path_entries]
      exact hap
    have h0 : split_paths "" = [""] := rfl
    rw [h0] at hap2
    exact split_paths_join_paths _ q (by simp) hap2

theorem C10_clear_env_keeps_path_witness :
    split_paths "/proj/target/release:/proj/target/debug:" =
      ["/proj" ++ "/target/release", "/proj" ++ "/target/debug", ""] := by
  have h := C10_clear_env_keeps_path ({ program := "x", clear_env := some true } : Config)
      ⟨none, "/proj", ""⟩
      ⟨"x", [], none, true, [("PATH", "/proj/target/release:/proj/target/debug:")], Stdio.null⟩
      rfl rfl (by simp) (by rfl)
  exact h.2.2 rfl "/proj/target/release:/proj/target/debug:" (by decide)

/-! ### Structure of the invocation traces -/

theorem streamCheckEvs_mem (e : Option (List Nat)) (a : List Nat)
    (mkEv : List Nat → List Nat → Ev) (ev : Ev)
    (h : ev ∈ streamCheckEvs e a mkEv) :
    ∃ v, e = some v ∧ ev = mkEv v a := by
  cases e <;> simp_all [streamCheckEvs]

theorem signalCheckEvs_mem (e : Option Int) (a : Option Int) (ev : Ev)
    (h : ev ∈ signalCheckEvs e a) :
    ∃ sg, e = some sg ∧ ev = Ev.checkedSignal sg a := by
  cases e <;> simp_all [signalCheckEvs]

theorem checkStream_none (e : Option (List Nat)) (a : List Nat) (m : String)
    (h : checkStream e a m = none) :
    e = none ∨ e = some a := by
  cases e with
  | none => exact Or.inl rfl
  | some v =>
    simp only [checkStream] at h
    by_cases hv : v = a
    · exact Or.inr (hv ▸ rfl)
    · rw [if_neg hv] at h
      exact absurd h (by simp)

/-- Every event the drain/verify stage emits beyond its input trace. -/
theorem drainAndVerify_mem (cfg : Config) (c : Child) (status : ExitStatus)
    (tr : List Ev) (ev : Ev) (h : ev ∈ (drainAndVerify cfg c status tr).1) :
    ev ∈ tr ∨ ev = Ev.drainedOut c.outBytes ∨ ev = Ev.drainedErr c.errBytes
    ∨ (∃ v, cfg.stdout = some v ∧ ev = Ev.checkedOut v c.outBytes)
    ∨ (∃ v, cfg.stderr = some v ∧ ev = Ev.checkedErr v c.errBytes)
    ∨ ev = Ev.builtOutput := by
  simp only [drainAndVerify] at h
  split at h
  · simp only [List.mem_append, List.mem_cons, List.not_mem_nil, or_false] at h
    rcases h with (h | h) | h
    · exact Or.inl h
    · rcases h with h | h
      · right; left; exact h
      · right; right; left; exact h
    · obtain ⟨v, hv, rfl⟩ := streamCheckEvs_mem _ _ _ _ h
      right; right; right; left; exact ⟨v, hv, rfl⟩
  · split at h
    · simp only [List.mem_append, List.mem_cons, List.not_mem_nil, or_false] at h
      rcases h with ((h | h) | h) | h
      · exact Or.inl h
      · rcases h with h | h
        · right; left; exact h
        · right; right; left; exact h
      · obtain ⟨v, hv, rfl⟩ := streamCheckEvs_mem _ _ _ _ h
        right; right; right; left; exact ⟨v, hv, rfl⟩
      · obtain ⟨v, hv, rfl⟩ := streamCheckEvs_mem _ _ _ _ h
        right; right; right; right; left; exact ⟨v, hv, rfl⟩
    · simp only [List.mem_append, List.mem_cons, List.not_mem_nil, or_false] at h
      rcases h with (((h | h) | h) | h) | h
      · exact Or.inl h
      · rcases h with h | h
        · right; left; exact h
        · right; right; left; exact h
      · obtain ⟨v, hv, rfl⟩ := streamCheckEvs_mem _ _ _ _ h
        right; right; right; left; exact ⟨v, hv, rfl⟩
      · obtain ⟨v, hv, rfl⟩ := streamCheckEvs_mem _ _ _ _ h
        right; right; right; right; left; exact ⟨v, hv, rfl⟩
      · right; right; right; right; right; exact h

/-- A drain/verify stage that returns an `Output` drained both full
buffers into it, matched every configured stream expectation, and emitted
the events in drain-then-compare-then-build order. -/
theorem drainAndVerify_ok (cfg : Config) (c : Child) (status : ExitStatus)
    (tr tr2 : List Ev) (out : Output)
    (h : drainAndVerify cfg c status tr = (tr2, ExecResult.ok out)) :
    out = ⟨status, c.outBytes, c.errBytes⟩
    ∧ (∀ v, cfg.stdout = some v → v = c.outBytes)
    ∧ (∀ v, cfg.stderr = some v → v = c.errBytes)
    ∧ tr2 = tr ++ [Ev.drainedOut c.outBytes, Ev.drainedErr c.errBytes]
        ++ streamCheckEvs cfg.stdout c.outBytes Ev.checkedOut
        ++ streamCheckEvs cfg.stderr c.errBytes Ev.checkedErr
        ++ [Ev.builtOutput] := by
  simp only [drainAndVerify] at h
  split at h
  · exact absurd h (by simp)
  · split at h
    · exact absurd h (by simp)
    · rename_i x1 hso x2 hse
      injection h with h1 h2
      injection h2 with h3
      refine ⟨h3.symm, fun v hv => ?_, fun v hv => ?_, h1.symm⟩
      · rcases checkStream_none _ _ _ hso with hn | hs2
        · rw [hv] at hn; exact absurd hn (by simp)
        · rw [hv] at hs2; exact Option.some.inj hs2
      · rcases checkStream_none _ _ _ hse with hn | hs2
        · rw [hv] at hn; exact absurd hn (by simp)
        · rw [hv] at hs2; exact Option.some.inj hs2

/-- Decompose membership in the trace segment holding the exit-code check
and the optional signal check. -/
theorem mem_codeSig (cfg : Config) (status : ExitStatus) (tr0 : List Ev) (ev : Ev)
    (h : ev ∈ tr0 ++ [Ev.checkedCode (cfg.code.getD 0) (get_code status)]
        ++ signalCheckEvs cfg.signal status.signal) :
    ev ∈ tr0 ∨ ev = Ev.checkedCode (cfg.code.getD 0) (get_code status)
    ∨ (∃ sg, cfg.signal = some sg ∧ ev = Ev.checkedSignal sg status.signal) := by
  simp only [List.mem_append, List.mem_cons, List.not_mem_nil, or_false] at h
  rcases h with (h | h) | h
  · exact Or.inl h
  · right; left; exact h
  · obtain ⟨sg, hsg, rfl⟩ := signalCheckEvs_mem _ _ _ h
    right; right; exact ⟨sg, hsg, rfl⟩

/-- Every event the post-wait verification stages can emit beyond the
input trace. -/
theorem afterWait_mem (cfg : Config) (c : Child) (status : ExitStatus)
    (tr0 : List Ev) (ev : Ev) (h : ev ∈ (afterWait cfg c status tr0).1) :
    ev ∈ tr0 ∨ ev = Ev.checkedCode (cfg.code.getD 0) (get_code status)
    ∨ (∃ sg, cfg.signal = some sg ∧ ev = Ev.checkedSignal sg status.signal)
    ∨ ev = Ev.drainedOut c.outBytes ∨ ev = Ev.drainedErr c.errBytes
    ∨ (∃ v, cfg.stdout = some v ∧ ev = Ev.checkedOut v c.outBytes)
    ∨ (∃ v, cfg.stderr = some v ∧ ev = Ev.checkedErr v c.errBytes)
    ∨ ev = Ev.builtOutput := by
  simp only [afterWait] at h
  split at h
  · split at h
    · split at h
      · rcases drainAndVerify_mem _ _ _ _ _ h with h | h | h | h | h | h
        · rcases mem_codeSig cfg status tr0 ev h with h | h | h
          · exact Or.inl h
          · right; left; exact h
          · right; right; left; exact h
        · right; right; right; left; exact h
        · right; right; right; right; left; exact h
        · right; right; right; right; right; left; exact h
        · right; right; right; right; right; right; left; exact h
        · right; right; right; right; right; right; right; exact h
      · rcases mem_codeSig cfg status tr0 ev (by simpa using h) with h | h | h
        · exact Or.inl h
        · right; left; exact h
        · right; right; left; exact h
    · rcases drainAndVerify_mem _ _ _ _ _ h with h | h | h | h | h | h
      · rcases mem_codeSig cfg status tr0 ev h with h | h | h
        · exact Or.inl h
        · right; left; exact h
        · right; right; left; exact h
      · right; right; right; left; exact h
      · right; right; right; right; left; exact h
      · right; right; right; right; right; left; exact h
      · right; right; right; right; right; right; left; exact h
      · right; right; right; right; right; right; right; exact h
  · simp only [List.mem_append, List.mem_cons, List.not_mem_nil, or_false] at h
    rcases h with h | h
    · exact Or.inl h
    · right; left; exact h

/-- A completed verification (one that returns an `Output`) passed the
exit-code check, passed any configured signal check against a status that
really was signal-terminated, carries the full drained buffers, matched
any configured stream expectations, and emitted its events in
wait-code-signal-drain-compare-build order. -/
theorem afterWait_ok (cfg : Config) (c : Child) (status : ExitStatus)
    (tr0 tr : List Ev) (out : Output)
    (h : afterWait cfg c status tr0 = (tr, ExecResult.ok out)) :
    cfg.code.getD 0 = get_code status
    ∧ (∀ sg, cfg.signal = some sg → status.signal = some sg)
    ∧ out = ⟨status, c.outBytes, c.errBytes⟩
    ∧ (∀ v, cfg.stdout = some v → v = c.outBytes)
    ∧ (∀ v, cfg.stderr = some v → v = c.errBytes)
    ∧ tr = tr0 ++ [Ev.checkedCode (cfg.code.getD 0) (get_code status)]
        ++ signalCheckEvs cfg.signal status.signal
        ++ [Ev.drainedOut c.outBytes, Ev.drainedErr c.errBytes]
        ++ streamCheckEvs cfg.stdout c.outBytes Ev.checkedOut
        ++ streamCheckEvs cfg.stderr c.errBytes Ev.checkedErr
        ++ [Ev.builtOutput] := by
  simp only [afterWait] at h
  split at h
  · rename_i hcode
    split at h
    · rename_i sg hsg
      split at h
      · rename_i hsig
        obtain ⟨hout, hso, hse, htr⟩ := drainAndVerify_ok _ _ _ _ _ _ h
        refine ⟨hcode, fun sg2 hsg2 => ?_, hout, hso, hse, htr⟩
        rw [hsg2] at hsg
        have : sg2 = sg := Option.some.inj hsg
        rw [this, hsig]
      · exact absurd h (by simp)
    · rename_i hsg
      obtain ⟨hout, hso, hse, htr⟩ := drainAndVerify_ok _ _ _ _ _ _ h
      refine ⟨hcode, fun sg2 hsg2 => ?_, hout, hso, hse, htr⟩
      rw [hsg2] at hsg
      exact absurd hsg (by simp)
  · exact absurd h (by simp)

theorem drainAndVerify_extends (cfg : Config) (c : Child) (status : ExitStatus)
    (tr : List Ev) :
    ∃ suf, (drainAndVerify cfg c status tr).1 = tr ++ suf := by
  simp only [drainAndVerify]
  split
  · exact ⟨[Ev.drainedOut c.outBytes, Ev.drainedErr c.errBytes]
      ++ streamCheckEvs cfg.stdout c.outBytes Ev.checkedOut, by simp [List.append_assoc]⟩
  · split
    · exact ⟨[Ev.drainedOut c.outBytes, Ev.drainedErr c.errBytes]
        ++ streamCheckEvs cfg.stdout c.outBytes Ev.checkedOut
        ++ streamCheckEvs cfg.stderr c.errBytes Ev.checkedErr, by simp [List.append_assoc]⟩
    · exact ⟨[Ev.drainedOut c.outBytes, Ev.drainedErr c.errBytes]
        ++ streamCheckEvs cfg.stdout c.outBytes Ev.checkedOut
        ++ streamCheckEvs cfg.stderr c.errBytes Ev.checkedErr
        ++ [Ev.builtOutput], by simp [List.append_assoc]⟩

theorem afterWait_extends (cfg : Config) (c : Child) (status : ExitStatus)
    (tr0 : List Ev) :
    ∃ suf, (afterWait cfg c status tr0).1 = tr0 ++ suf := by
  simp only [afterWait]
  split
  · split
    · split
      · obtain ⟨suf, hsuf⟩ := drainAndVerify_extends cfg c status
          (tr0 ++ [Ev.checkedCode (cfg.code.getD 0) (get_code status)]
            ++ signalCheckEvs cfg.signal status.signal)
        exact ⟨[Ev.checkedCode (cfg.code.getD 0) (get_code status)]
          ++ signalCheckEvs cfg.signal status.signal ++ suf,
          by rw [hsuf]; simp [List.append_assoc]⟩
      · exact ⟨[Ev.checkedCode (cfg.code.getD 0) (get_code status)]
          ++ signalCheckEvs cfg.signal status.signal, by simp [List.append_assoc]⟩
    · obtain ⟨suf, hsuf⟩ := drainAndVerify_extends cfg c status
        (tr0 ++ [Ev.checkedCode (cfg.code.getD 0) (get_code status)]
          ++ signalCheckEvs cfg.signal status.signal)
      exact ⟨[Ev.checkedCode (cfg.code.getD 0) (get_code status)]
        ++ signalCheckEvs cfg.signal status.signal ++ suf,
        by rw [hsuf]; simp [List.append_assoc]⟩
  · exact ⟨[Ev.checkedCode (cfg.code.getD 0) (get_code status)], by simp⟩

/-- A recorded signal comparison whose actual side is `none` (the child
exited normally) always ends in the signal panic. -/
theorem afterWait_signal_panic (cfg : Config) (c : Child) (status : ExitStatus)
    (tr0 tr : List Ev) (r : ExecResult) (sg : Int)
    (h : afterWait cfg c status tr0 = (tr, r))
    (hpre : ∀ e a, Ev.checkedSignal e a ∉ tr0)
    (hmem : Ev.checkedSignal sg none ∈ tr) :
    r = ExecResult.panicked "Unexpected signal" := by
  simp only [afterWait] at h
  split at h
  · split at h
    · rename_i sg0 hsg
      split at h
      · rename_i hsig
        exfalso
        have htr := congrArg Prod.fst h
        simp only at htr
        rw [← htr] at hmem
        rcases drainAndVerify_mem _ _ _ _ _ hmem with hm | hm | hm | hm | hm | hm
        · rcases mem_codeSig cfg status tr0 _ hm with hm | hm | hm
          · exact hpre sg none hm
          · exact absurd hm (by simp)
          · obtain ⟨sg2, hsg2, hev⟩ := hm
            injection hev with h1 h2
            rw [← h2] at hsig
            exact absurd hsig (by simp)
        · exact absurd hm (by simp)
        · exact absurd hm (by simp)
        · obtain ⟨v, hv, hev⟩ := hm
          exact absurd hev (by simp)
        · obtain ⟨v, hv, hev⟩ := hm
          exact absurd hev (by simp)
        · exact absurd hm (by simp)
      · injection h with h1 h2
        exact h2.symm
    · rename_i hsg
      exfalso
      have htr := congrArg Prod.fst h
      simp only at htr
      rw [← htr] at hmem
      rcases drainAndVerify_mem _ _ _ _ _ hmem with hm | hm | hm | hm | hm | hm
      · rcases mem_codeSig cfg status tr0 _ hm with hm | hm | hm
        · exact hpre sg none hm
        · exact absurd hm (by simp)
        · obtain ⟨sg2, hsg2, hev⟩ := hm
          rw [hsg] at hsg2
          exact absurd hsg2 (by simp)
      · exact absurd hm (by simp)
      · exact absurd hm (by simp)
      · obtain ⟨v, hv, hev⟩ := hm
        exact absurd hev (by simp)
      · obtain ⟨v, hv, hev⟩ := hm
        exact absurd hev (by simp)
      · exact absurd hm (by simp)
  · exfalso
    have htr := congrArg Prod.fst h
    simp only at htr
    rw [← htr] at hmem
    simp only [List.mem_append, List.mem_cons, List.not_mem_nil, or_false] at hmem
    rcases hmem with hm | hm
    · exact hpre sg none hm
    · exact absurd hm (by simp)

/-- The stdin configuration recorded in the built command: a pipe exactly
when a payload is configured, the null device otherwise. -/
theorem buildCommand_stdinCfg (cfg : Config) (w : World) (cmd : Command)
    (hok : buildCommand cfg w = Except.ok cmd) :
    cmd.stdinCfg = if cfg.stdin.isSome then Stdio.piped else Stdio.null := by
  simp only [buildCommand] at hok
  cases hpe : processEnvPairs (cfg.modify_path.getD true) w.manifestDir (cfg.env.getD []) with
  | error e => rw [hpe] at hok; exact absurd hok (by simp)
  | ok pr =>
    obtain ⟨sets, cp⟩ := pr
    simp only [hpe] at hok
    split at hok
    · cases hap : alter_path (w.pathVar.getD "") w.manifestDir with
      | none => rw [hap] at hok; exact absurd hok (by simp)
      | some p =>
        rw [hap] at hok
        have hcmd := Except.ok.inj hok
        subst hcmd
        rfl
    · have hcmd := Except.ok.inj hok
      subst hcmd
      rfl

/-- The three possible courses of an invocation that returns: a pre-spawn
configuration panic with an empty trace, a spawn-failure panic with an
empty trace, or a spawned run that waited and entered verification with
the spawn/write/close/wait events in front. -/
theorem exec_shape (cfg : Config) (w : World) (c : Child) (tr : List Ev)
    (r : ExecResult) (hrun : exec cfg w c = some (tr, r)) :
    (∃ m, buildCommand cfg w = Except.error m ∧ tr = [] ∧ r = ExecResult.panicked m)
    ∨ (c.spawnable = false ∧ tr = []
        ∧ r = ExecResult.panicked ("Failed to spawn child process: " ++ w.spawnErrorRepr))
    ∨ (c.spawnable = true ∧ ∃ status, wait c cfg.timeout = some status
        ∧ (tr, r) = afterWait cfg c status (spawnWaitEvs cfg)) := by
  simp only [exec] at hrun
  cases hb : buildCommand cfg w with
  | error m =>
    simp only [hb] at hrun
    have := Option.some.inj hrun
    injection this with h1 h2
    exact Or.inl ⟨m, rfl, h1.symm, h2.symm⟩
  | ok cmd =>
    simp only [hb] at hrun
    cases hs : c.spawnable with
    | false =>
      rw [hs] at hrun
      simp only [Bool.false_eq_true, if_false] at hrun
      have := Option.some.inj hrun
      injection this with h1 h2
      right; left; exact ⟨rfl, h1.symm, h2.symm⟩
    | true =>
      rw [hs] at hrun
      simp only [if_true] at hrun
      have hstdin := buildCommand_stdinCfg cfg w cmd hb
      cases hw : wait c cfg.timeout with
      | none => rw [hw] at hrun; exact absurd hrun (by simp)
      | some status =>
        rw [hw] at hrun
        refine Or.inr (Or.inr ⟨rfl, status, rfl, ?_⟩)
        have hpre : [Ev.spawned] ++
            (match cfg.stdin with
             | some p => [Ev.wroteStdin p]
             | none => []) ++
            (if cmd.stdinCfg = Stdio.piped then [Ev.closedStdin] else []) ++ [Ev.waited] =
            spawnWaitEvs cfg := by
          rw [hstdin]
          unfold spawnWaitEvs
          rcases cfg.stdin with _ | p <;> simp
        rw [← hpre]
        exact (Option.some.inj hrun).symm

theorem spawnWaitEvs_mem (cfg : Config) (ev : Ev) (h : ev ∈ spawnWaitEvs cfg) :
    ev = Ev.spawned ∨ (∃ p, cfg.stdin = some p ∧ ev = Ev.wroteStdin p)
    ∨ ev = Ev.closedStdin ∨ ev = Ev.waited := by
  unfold spawnWaitEvs at h
  rcases hsi : cfg.stdin with _ | p <;> rw [hsi] at h <;> simp at h
  · rcases h with h | h
    · exact Or.inl h
    · right; right; right; exact h
  · rcases h with h | h | h | h
    · exact Or.inl h
    · right; left; exact ⟨p, rfl, h⟩
    · right; right; left; exact h
    · right; right; right; exact h

theorem spawnWaitEvs_no_checks (cfg : Config) :
    (∀ e a, Ev.checkedCode e a ∉ spawnWaitEvs cfg)
    ∧ (∀ e a, Ev.checkedSignal e a ∉ spawnWaitEvs cfg)
    ∧ (∀ e a, Ev.checkedOut e a ∉ spawnWaitEvs cfg)
    ∧ (∀ e a, Ev.checkedErr e a ∉ spawnWaitEvs cfg)
    ∧ Ev.builtOutput ∉ spawnWaitEvs cfg
    ∧ (∀ b, Ev.drainedOut b ∉ spawnWaitEvs cfg)
    ∧ (∀ b, Ev.drainedErr b ∉ spawnWaitEvs cfg) := by
  refine ⟨fun e a hm => ?_, fun e a hm => ?_, fun e a hm => ?_, fun e a hm => ?_,
    fun hm => ?_, fun b hm => ?_, fun b hm => ?_⟩ <;>
  · rcases spawnWaitEvs_mem cfg _ hm with h | ⟨p, hp, h⟩ | h | h <;> simp at h

/-- Every event an invocation can record, each tied to the configuration
field or stage it belongs to. -/
theorem exec_mem (cfg : Config) (w : World) (c : Child) (tr : List Ev)
    (r : ExecResult) (hrun : exec cfg w c = some (tr, r)) (ev : Ev) (h : ev ∈ tr) :
    ev = Ev.spawned ∨ (∃ p, cfg.stdin = some p ∧ ev = Ev.wroteStdin p)
    ∨ ev = Ev.closedStdin ∨ ev = Ev.waited
    ∨ (∃ status, wait c cfg.timeout = some status ∧
        (ev = Ev.checkedCode (cfg.code.getD 0) (get_code status)
          ∨ (∃ sg, cfg.signal = some sg ∧ ev = Ev.checkedSignal sg status.signal)))
    ∨ ev = Ev.drainedOut c.outBytes ∨ ev = Ev.drainedErr c.errBytes
    ∨ (∃ v, cfg.stdout = some v ∧ ev = Ev.checkedOut v c.outBytes)
    ∨ (∃ v, cfg.stderr = some v ∧ ev = Ev.checkedErr v c.errBytes)
    ∨ ev = Ev.builtOutput := by
  rcases exec_shape cfg w c tr r hrun with ⟨m, hb, htr, hr⟩ | ⟨hs, htr, hr⟩
    | ⟨hs, status, hw, haw⟩
  · subst htr; exact absurd h (by simp)
  · subst htr; exact absurd h (by simp)
  · have htr := congrArg Prod.fst haw
    simp only at htr
    rw [htr] at h
    rcases afterWait_mem cfg c status (spawnWaitEvs cfg) ev h with h | h | h | h | h | h | h | h
    · rcases spawnWaitEvs_mem cfg ev h with h | h | h | h
      · exact Or.inl h
      · right; left; exact h
      · right; right; left; exact h
      · right; right; right; left; exact h
    · right; right; right; right; left; exact ⟨status, hw, Or.inl h⟩
    · right; right; right; right; left; exact ⟨status, hw, Or.inr h⟩
    · right; right; right; right; right; left; exact h
    · right; right; right; right; right; right; left; exact h
    · right; right; right; right; right; right; right; left; exact h
    · right; right; right; right; right; right; right; right; left; exact h
    · right; right; right; right; right; right; right; right; right; exact h

/-- C1: the exit-code expectation is checked on every run that reaches
verification, against the default `0` when the `code` key is absent and
against the given value when present; the stdout, stderr, and signal
expectations are compared only when supplied, each against its supplied
value, and an unset field is never compared. -/
theorem C1_checked_fields (cfg : Config) (w : World) (c : Child)
    (tr : List Ev) (r : ExecResult) (hrun : exec cfg w c = some (tr, r)) :
    (∀ e a, Ev.checkedCode e a ∈ tr → e = cfg.code.getD 0)
    ∧ (∀ out, r = ExecResult.ok out →
        Ev.checkedCode (cfg.code.getD 0) (get_code out.status) ∈ tr)
    ∧ (cfg.stdout = none → ∀ e a, Ev.checkedOut e a ∉ tr)
    ∧ (cfg.stderr = none → ∀ e a, Ev.checkedErr e a ∉ tr)
    ∧ (cfg.signal = none → ∀ e a, Ev.checkedSignal e a ∉ tr)
    ∧ (∀ v, cfg.stdout = some v → ∀ e a, Ev.checkedOut e a ∈ tr → e = v)
    ∧ (∀ v, cfg.stderr = some v → ∀ e a, Ev.checkedErr e a ∈ tr → e = v)
    ∧ (∀ sg, cfg.signal = some sg → ∀ e a, Ev.checkedSignal e a ∈ tr → e = sg) := by
  refine ⟨fun e a hm => ?_, fun out hout => ?_, fun hn e a hm => ?_, fun hn e a hm => ?_,
    fun hn e a hm => ?_, fun v hv e a hm => ?_, fun v hv e a hm => ?_, fun sg hv e a hm => ?_⟩
  · rcases exec_mem cfg w c tr r hrun _ hm with h | ⟨p, hp, h⟩ | h | h
      | ⟨status, hw, h | ⟨sg, hsg, h⟩⟩ | h | h | ⟨v, hv, h⟩ | ⟨v, hv, h⟩ | h <;>
      first
        | (simp at h; done)
        | (injection h)
  · rcases exec_shape cfg w c tr r hrun with ⟨m, hb, htr, hr⟩ | ⟨hs, htr, hr⟩
      | ⟨hs, status, hw, haw⟩
    · rw [hout] at hr; exact absurd hr (by simp)
    · rw [hout] at hr; exact absurd hr (by simp)
    · have h2 : afterWait cfg c status (spawnWaitEvs cfg) = (tr, ExecResult.ok out) := by
        rw [← haw, hout]
      obtain ⟨hcode, hsg, houteq, hso, hse, htr⟩ := afterWait_ok _ _ _ _ _ _ h2
      rw [htr, houteq]
      simp
  · rcases exec_mem cfg w c tr r hrun _ hm with h | ⟨p, hp, h⟩ | h | h
      | ⟨status, hw, h | ⟨sg, hsg, h⟩⟩ | h | h | ⟨v, hv2, h⟩ | ⟨v, hv2, h⟩ | h <;>
      first
        | (simp at h; done)
        | (injection h; done)
        | (rw [hn] at hv2; exact absurd hv2 (by simp))
  · rcases exec_mem cfg w c tr r hrun _ hm with h | ⟨p, hp, h⟩ | h | h
      | ⟨status, hw, h | ⟨sg, hsg, h⟩⟩ | h | h | ⟨v, hv2, h⟩ | ⟨v, hv2, h⟩ | h <;>
      first
        | (simp at h; done)
        | (injection h; done)
        | (rw [hn] at hv2; exact absurd hv2 (by simp))
  · rcases exec_mem cfg w c tr r hrun _ hm with h | ⟨p, hp, h⟩ | h | h
      | ⟨status, hw, h | ⟨sg, hsg, h⟩⟩ | h | h | ⟨v, hv2, h⟩ | ⟨v, hv2, h⟩ | h <;>
      first
        | (simp at h; done)
        | (injection h; done)
        | (rw [hn] at hsg; exact absurd hsg (by simp))
  · rcases exec_mem cfg w c tr r hrun _ hm with h | ⟨p, hp, h⟩ | h | h
      | ⟨status, hw, h | ⟨sg, hsg, h⟩⟩ | h | h | ⟨v2, hv2, h⟩ | ⟨v2, hv2, h⟩ | h <;>
      first
        | (simp at h; done)
        | (injection h; done)
        | (injection h with h1 h2
           rw [hv] at hv2
           rw [h1]
           exact (Option.some.inj hv2).symm)
  · rcases exec_mem cfg w c tr r hrun _ hm with h | ⟨p, hp, h⟩ | h | h
      | ⟨status, hw, h | ⟨sg, hsg, h⟩⟩ | h | h | ⟨v2, hv2, h⟩ | ⟨v2, hv2, h⟩ | h <;>
      first
        | (simp at h; done)
        | (injection h; done)
        | (injection h with h1 h2
           rw [hv] at hv2
           rw [h1]
           exact (Option.some.inj hv2).symm)
  · rcases exec_mem cfg w c tr r hrun _ hm with h | ⟨p, hp, h⟩ | h | h
      | ⟨status, hw, h | ⟨sg2, hsg, h⟩⟩ | h | h | ⟨v2, hv2, h⟩ | ⟨v2, hv2, h⟩ | h <;>
      first
        | (simp at h; done)
        | (injection h; done)
        | (injection h with h1 h2
           rw [hv] at hsg
           rw [h1]
           exact (Option.some.inj hsg).symm)

theorem C1_checked_fields_witness :
    Ev.checkedCode 0 0 ∈
      [Ev.spawned, Ev.waited, Ev.checkedCode 0 0, Ev.drainedOut [], Ev.drainedErr [],
        Ev.builtOutput] := by
  have h := C1_checked_fields { program := "true" } ⟨none, "/proj", ""⟩
      ⟨true, some 1, ExitStatus.exited 0, [], [], false⟩
      [Ev.spawned, Ev.waited, Ev.checkedCode 0 0, Ev.drainedOut [], Ev.drainedErr [],
        Ev.builtOutput]
      (ExecResult.ok ⟨ExitStatus.exited 0, [], []⟩) (by rfl)
  exact h.2.1 ⟨ExitStatus.exited 0, [], []⟩ rfl

/-- C6 (counterexample): in a plain successful run the exit-code
comparison is recorded at index 2, strictly before the stream drains at
indices 3 and 4, so draining does not precede every comparison of the
Result Verifier. -/
theorem C6_counterexample :
    exec { program := "true" } ⟨none, "/proj", ""⟩
        ⟨true, some 1, ExitStatus.exited 0, [], [], false⟩ =
      some ([Ev.spawned, Ev.waited, Ev.checkedCode 0 0, Ev.drainedOut [], Ev.drainedErr [],
        Ev.builtOutput], ExecResult.ok ⟨ExitStatus.exited 0, [], []⟩)
    ∧ List.indexOf (Ev.checkedCode 0 0)
        [Ev.spawned, Ev.waited, Ev.checkedCode 0 0, Ev.drainedOut [], Ev.drainedErr [],
          Ev.builtOutput] = 2
    ∧ List.indexOf (Ev.drainedOut [])
        [Ev.spawned, Ev.waited, Ev.checkedCode 0 0, Ev.drainedOut [], Ev.drainedErr [],
          Ev.builtOutput] = 3
    ∧ (2 : Nat) < 3 :=
  ⟨rfl, by decide, by decide, by decide⟩

/-- C6 (amended): a completed invocation runs wait, then the exit-code and
signal checks, then drains both streams to end-of-stream, then the
stdout/stderr comparisons, and constructs exactly one result object at the
very end, after both buffers are complete. -/
theorem C6_stage_order (cfg : Config) (w : World) (c : Child)
    (tr : List Ev) (out : Output)
    (hrun : exec cfg w c = some (tr, ExecResult.ok out)) :
    tr = spawnWaitEvs cfg
        ++ [Ev.checkedCode (cfg.code.getD 0) (get_code out.status)]
        ++ signalCheckEvs cfg.signal out.status.signal
        ++ [Ev.drainedOut out.stdout, Ev.drainedErr out.stderr]
        ++ streamCheckEvs cfg.stdout out.stdout Ev.checkedOut
        ++ streamCheckEvs cfg.stderr out.stderr Ev.checkedErr
        ++ [Ev.builtOutput]
    ∧ (∃ pre, tr = pre ++ [Ev.builtOutput] ∧ Ev.builtOutput ∉ pre) := by
  rcases exec_shape cfg w c tr _ hrun with ⟨m, hb, htr, hr⟩ | ⟨hs, htr, hr⟩
    | ⟨hs, status, hw, haw⟩
  · exact absurd hr (by simp)
  · exact absurd hr (by simp)
  · obtain ⟨hcode, hsg, houteq, hso, hse, htr⟩ := afterWait_ok _ _ _ _ _ _ haw.symm
    have hstat : out.status = status := by rw [houteq]
    have hout2 : out.stdout = c.outBytes := by rw [houteq]
    have herr2 : out.stderr = c.errBytes := by rw [houteq]
    rw [hstat, hout2, herr2]
    refine ⟨htr, ?_⟩
    refine ⟨spawnWaitEvs cfg
        ++ [Ev.checkedCode (cfg.code.getD 0) (get_code status)]
        ++ signalCheckEvs cfg.signal status.signal
        ++ [Ev.drainedOut c.outBytes, Ev.drainedErr c.errBytes]
        ++ streamCheckEvs cfg.stdout c.outBytes Ev.checkedOut
        ++ streamCheckEvs cfg.stderr c.errBytes Ev.checkedErr, by rw [htr], ?_⟩
    intro hm
    simp only [List.mem_append] at hm
    rcases hm with ((((hm | hm) | hm) | hm) | hm) | hm
    · exact (spawnWaitEvs_no_checks cfg).2.2.2.2.1 hm
    · simp at hm
    · obtain ⟨sg, hsg2, hev⟩ := signalCheckEvs_mem _ _ _ hm
      simp at hev
    · simp at hm
    · obtain ⟨v, hv, hev⟩ := streamCheckEvs_mem _ _ _ _ hm
      simp at hev
    · obtain ⟨v, hv, hev⟩ := streamCheckEvs_mem _ _ _ _ hm
      simp at hev

theorem C6_stage_order_witness :
    ([Ev.spawned, Ev.waited, Ev.checkedCode 0 0, Ev.drainedOut [], Ev.drainedErr [],
        Ev.builtOutput] : List Ev) =
      spawnWaitEvs { program := "true" }
        ++ [Ev.checkedCode 0 0] ++ [] ++ [Ev.drainedOut [], Ev.drainedErr []] ++ [] ++ []
        ++ [Ev.builtOutput] := by
  have h := C6_stage_order { program := "true" } ⟨none, "/proj", ""⟩
      ⟨true, some 1, ExitStatus.exited 0, [], [], false⟩
      [Ev.spawned, Ev.waited, Ev.checkedCode 0 0, Ev.drainedOut [], Ev.drainedErr [],
        Ev.builtOutput]
      ⟨ExitStatus.exited 0, [], []⟩ (by rfl)
  exact h.1

/-- C7: with a payload configured stdin is a pipe and the invocation
writes the whole payload right after spawning, and the pipe is closed (by
the wait call taking the handle) before the wait returns; without a
payload stdin is the null device and no write or close happens before the
wait. -/
theorem C7_stdin_handling (cfg : Config) (w : World) (c : Child) (cmd : Command)
    (hb : buildCommand cfg w = Except.ok cmd) :
    ((cfg.stdin.isSome = true → cmd.stdinCfg = Stdio.piped)
      ∧ (cfg.stdin = none → cmd.stdinCfg = Stdio.null))
    ∧ (∀ p tr r, cfg.stdin = some p → c.spawnable = true →
        exec cfg w c = some (tr, r) →
        ∃ rest, tr = [Ev.spawned, Ev.wroteStdin p, Ev.closedStdin, Ev.waited] ++ rest)
    ∧ (∀ tr r, cfg.stdin = none → c.spawnable = true →
        exec cfg w c = some (tr, r) →
        ∃ rest, tr = [Ev.spawned, Ev.waited] ++ rest) := by
  have hcfg := buildCommand_stdinCfg cfg w cmd hb
  refine ⟨⟨fun hsome => ?_, fun hnone => ?_⟩, fun p tr r hp hs hrun => ?_,
    fun tr r hp hs hrun => ?_⟩
  · rw [hcfg, hsome]
    rfl
  · rw [hcfg, hnone]
    rfl
  · rcases exec_shape cfg w c tr r hrun with ⟨m, hb2, htr, hr⟩ | ⟨hs2, htr, hr⟩
      | ⟨hs2, status, hw, haw⟩
    · rw [hb] at hb2; exact absurd hb2 (by simp)
    · rw [hs] at hs2; exact absurd hs2 (by simp)
    · have htr := congrArg Prod.fst haw
      simp only at htr
      obtain ⟨suf, hsuf⟩ := afterWait_extends cfg c status (spawnWaitEvs cfg)
      refine ⟨suf, ?_⟩
      rw [htr, hsuf]
      have : spawnWaitEvs cfg = [Ev.spawned, Ev.wroteStdin p, Ev.closedStdin, Ev.waited] := by
        unfold spawnWaitEvs
        rw [hp]
        simp
      rw [this]
  · rcases exec_shape cfg w c tr r hrun with ⟨m, hb2, htr, hr⟩ | ⟨hs2, htr, hr⟩
      | ⟨hs2, status, hw, haw⟩
    · rw [hb] at hb2; exact absurd hb2 (by simp)
    · rw [hs] at hs2; exact absurd hs2 (by simp)
    · have htr := congrArg Prod.fst haw
      simp only at htr
      obtain ⟨suf, hsuf⟩ := afterWait_extends cfg c status (spawnWaitEvs cfg)
      refine ⟨suf, ?_⟩
      rw [htr, hsuf]
      have : spawnWaitEvs cfg = [Ev.spawned, Ev.waited] := by
        unfold spawnWaitEvs
        rw [hp]
        simp
      rw [this]

theorem C7_stdin_handling_witness :
    ∃ rest, ([Ev.spawned, Ev.wroteStdin [109, 101, 111, 119], Ev.closedStdin, Ev.waited,
        Ev.checkedCode 0 0, Ev.drainedOut [109, 101, 111, 119], Ev.drainedErr [],
        Ev.checkedOut [109, 101, 111, 119] [109, 101, 111, 119], Ev.checkedErr [] [],
        Ev.builtOutput] : List Ev) =
      [Ev.spawned, Ev.wroteStdin [109, 101, 111, 119], Ev.closedStdin, Ev.waited] ++ rest := by
  have h := (C7_stdin_handling
      { program := "print_stdin", stdin := some [109, 101, 111, 119],
        stdout := some [109, 101, 111, 119], stderr := some [] }
      ⟨none, "/proj", ""⟩
      ⟨true, some 1, ExitStatus.exited 0, [109, 101, 111, 119], [], false⟩
      ⟨"print_stdin", [], none, false,
        [("PATH", "/proj/target/release:/proj/target/debug:")], Stdio.piped⟩
      (by rfl)).2.1 [109, 101, 111, 119]
      [Ev.spawned, Ev.wroteStdin [109, 101, 111, 119], Ev.closedStdin, Ev.waited,
        Ev.checkedCode 0 0, Ev.drainedOut [109, 101, 111, 119], Ev.drainedErr [],
        Ev.checkedOut [109, 101, 111, 119] [109, 101, 111, 119], Ev.checkedErr [] [],
        Ev.builtOutput]
      (ExecResult.ok ⟨ExitStatus.exited 0, [109, 101, 111, 119], []⟩) rfl rfl (by rfl)
  exact h

/-- C8: with a signal expectation configured, a child that exited normally
never passes silently — a successful return implies the status really was
signal-terminated, and whenever the signal comparison is recorded against
a normal exit (actual side empty) the invocation panics with the signal
mismatch. -/
theorem C8_signal_vs_normal_exit (cfg : Config) (w : World) (c : Child)
    (tr : List Ev) (r : ExecResult) (sg : Int)
    (hrun : exec cfg w c = some (tr, r)) (hsig : cfg.signal = some sg) :
    (∀ out, r = ExecResult.ok out → out.status.signal ≠ none)
    ∧ (Ev.checkedSignal sg none ∈ tr → r = ExecResult.panicked "Unexpected signal") := by
  rcases exec_shape cfg w c tr r hrun with ⟨m, hb, htr, hr⟩ | ⟨hs, htr, hr⟩
    | ⟨hs, status, hw, haw⟩
  · subst htr
    exact ⟨fun out hout => by rw [hout] at hr; exact absurd hr (by simp),
      fun hm => absurd hm (by simp)⟩
  · subst htr
    exact ⟨fun out hout => by rw [hout] at hr; exact absurd hr (by simp),
      fun hm => absurd hm (by simp)⟩
  · constructor
    · intro out hout
      have h2 : afterWait cfg c status (spawnWaitEvs cfg) = (tr, ExecResult.ok out) := by
        rw [← haw, hout]
      obtain ⟨hcode, hsgnl, houteq, -, -, -⟩ := afterWait_ok _ _ _ _ _ _ h2
      have := hsgnl sg hsig
      rw [houteq]
      simp only
      rw [this]
      simp
    · intro hm
      exact afterWait_signal_panic cfg c status (spawnWaitEvs cfg) tr r sg haw.symm
        (fun e a => (spawnWaitEvs_no_checks cfg).2.1 e a) hm

theorem C8_signal_vs_normal_exit_witness :
    (ExitStatus.signaled 9).signal ≠ none := by
  have h := (C8_signal_vs_normal_exit
      { program := "sleep", args := ["60"], timeout := some 1000, code := some 9,
        stdout := some [], stderr := some [], signal := some 9 }
      ⟨none, "/proj", ""⟩
      ⟨true, some 60000, ExitStatus.exited 0, [], [], false⟩
      [Ev.spawned, Ev.waited, Ev.checkedCode 9 9, Ev.checkedSignal 9 (some 9),
        Ev.drainedOut [], Ev.drainedErr [], Ev.checkedOut [] [], Ev.checkedErr [] [],
        Ev.builtOutput]
      (ExecResult.ok ⟨ExitStatus.signaled 9, [], []⟩) 9 (by rfl) rfl).1
      ⟨ExitStatus.signaled 9, [], []⟩ rfl
  exact h

/-- C9 (counterexample): a failed spawn panics with the fixed diagnostic
plus the underlying OS error, and the message does not contain the
program name attempted. -/
theorem C9_counterexample :
    exec { program := "frobnicate-xyz" }
        ⟨some "/usr", "/proj", "No such file or directory (os error 2)"⟩
        ⟨false, some 1, ExitStatus.exited 0, [], [], false⟩ =
      some ([], ExecResult.panicked
        "Failed to spawn child process: No such file or directory (os error 2)")
    ∧ strHas "Failed to spawn child process: No such file or directory (os error 2)"
        "frobnicate-xyz" = false :=
  ⟨rfl, by decide⟩

/-- C9 (amended): every spawn failure aborts the invocation immediately —
no stage runs, no event is recorded and no result object is produced —
with the fixed diagnostic "Failed to spawn child process" followed by the
underlying OS error; the diagnostic does not include the program name. -/
theorem C9_spawn_failure (cfg : Config) (w : World) (c : Child) (cmd : Command)
    (hbuild : buildCommand cfg w = Except.ok cmd)
    (hspawn : c.spawnable = false) :
    exec cfg w c =
      some ([], ExecResult.panicked ("Failed to spawn child process: " ++ w.spawnErrorRepr)) := by
  simp [exec, hbuild, hspawn]

theorem C9_spawn_failure_witness :
    exec { program := "frobnicate-xyz" } ⟨some "/usr", "/proj", "enoent"⟩
        ⟨false, some 1, ExitStatus.exited 0, [], [], false⟩ =
      some ([], ExecResult.panicked ("Failed to spawn child process: " ++ "enoent")) :=
  C9_spawn_failure { program := "frobnicate-xyz" } ⟨some "/usr", "/proj", "enoent"⟩
    ⟨false, some 1, ExitStatus.exited 0, [], [], false⟩
    ⟨"frobnicate-xyz", [], none, false,
      [("PATH", "/proj/target/release:/proj/target/debug:/usr")], Stdio.null⟩
    (by rfl) rfl

end TestExec
